import Mathlib

/-!
Verification of the brick-structure resolver of `animo_threejs` (`src/script.js`).

The resolver (`buildStructure`) consumes a flat list of brick records, indexes
them by id, places the base brick (id "1", type "base") at the origin, and then
runs a breadth-first traversal over top-socket connections, computing a world
transform (position + quaternion rotation) for every reachable brick.

The embedding below mirrors the source: vectors and quaternions over ℝ with the
exact three.js component formulas (`multiplyQuaternions`, `applyQuaternion`,
`setFromAxisAngle`), the four catalog entries of `BRICK_DEFINITIONS`, the colour
map, and the BFS loop.  The while-loop is modelled with explicit fuel
(`records.length + 1`, proved sufficient below); the loop body threads an
explicit state holding the mesh map (`threeMeshes`), the visited set
(`processedBrickIds`), the queue, the emitted bricks in emission order, and an
instrumentation trace recording each traversed-and-emitted connection edge.
-/

noncomputable section

open Real

/-- A 3D vector with real components (models `THREE.Vector3`). -/
structure Vec3 where
  x : ℝ
  y : ℝ
  z : ℝ

/-- Quaternion with real components (models `THREE.Quaternion`). -/
structure Quat where
  w : ℝ
  x : ℝ
  y : ℝ
  z : ℝ

def vzero : Vec3 := ⟨0, 0, 0⟩

def vadd (a b : Vec3) : Vec3 := ⟨a.x + b.x, a.y + b.y, a.z + b.z⟩

def vsub (a b : Vec3) : Vec3 := ⟨a.x - b.x, a.y - b.y, a.z - b.z⟩

/-- The identity quaternion (a fresh `THREE.Quaternion()` / default mesh rotation). -/
def qid : Quat := ⟨1, 0, 0, 0⟩

/-- Hamilton product, component-for-component the three.js `multiplyQuaternions(a, b)`. -/
def qmul (a b : Quat) : Quat :=
  ⟨a.w * b.w - a.x * b.x - a.y * b.y - a.z * b.z,
   a.x * b.w + a.w * b.x + a.y * b.z - a.z * b.y,
   a.y * b.w + a.w * b.y + a.z * b.x - a.x * b.z,
   a.z * b.w + a.w * b.z + a.x * b.y - a.y * b.x⟩

/-- Rotate a vector by a quaternion; the exact three.js `Vector3.applyQuaternion`
formula (`t = 2 * cross(q.xyz, v)`, `v + q.w * t + cross(q.xyz, t)`). -/
def qapply (q : Quat) (v : Vec3) : Vec3 :=
  let tx := 2 * (q.y * v.z - q.z * v.y)
  let ty := 2 * (q.z * v.x - q.x * v.z)
  let tz := 2 * (q.x * v.y - q.y * v.x)
  ⟨v.x + q.w * tx + (q.y * tz - q.z * ty),
   v.y + q.w * ty + (q.z * tx - q.x * tz),
   v.z + q.w * tz + (q.x * ty - q.y * tx)⟩

/-- Models `THREE.Quaternion.setFromAxisAngle(axis, angle)` (axis assumed normalized). -/
def setFromAxisAngle (axis : Vec3) (angle : ℝ) : Quat :=
  ⟨Real.cos (angle / 2), axis.x * Real.sin (angle / 2),
   axis.y * Real.sin (angle / 2), axis.z * Real.sin (angle / 2)⟩

/-- Models `THREE.MathUtils.degToRad`. -/
def degToRad (degrees : ℝ) : ℝ := degrees * (Real.pi / 180)

-- Configuration constants from the top of `script.js`.
def STUD_SIZE : ℝ := 2
def PLATE_HEIGHT : ℝ := 2.4

/-- One entry of `BRICK_DEFINITIONS`: bounding size, the hole-offset function,
the base flag and the optional top/bottom hole id lists. -/
structure BrickDef where
  Size : Vec3
  HoleOffsets : Int → Vec3
  IsBase : Bool := false
  TopHoleIds : Option (List Int) := none
  BottomHoleIds : Option (List Int) := none

/-- The `BRICK_DEFINITIONS` entry for the base plate.  JS `%` truncates toward zero (`Int.tmod`) and
`Math.floor(x / 4)` is flooring division (`Int.fdiv`). -/
def baseDef : BrickDef :=
  { Size := ⟨4 * STUD_SIZE, PLATE_HEIGHT, 4 * STUD_SIZE⟩
    HoleOffsets := fun holeId =>
      let col : Int := Int.tmod holeId 4
      let row : Int := Int.fdiv holeId 4
      ⟨((col : ℝ) - 1.5) * STUD_SIZE, PLATE_HEIGHT / 2, ((row : ℝ) - 1.5) * STUD_SIZE⟩
    IsBase := true }

/-- The `BRICK_DEFINITIONS` entry for the 3x1 brick (the two sequential `if`s of the source have
disjoint conditions, hence the nested conditional). -/
def threeOneDef : BrickDef :=
  { Size := ⟨3 * STUD_SIZE, PLATE_HEIGHT, 1 * STUD_SIZE⟩
    HoleOffsets := fun holeId =>
      let yOffset : ℝ := if holeId ≤ 2 then PLATE_HEIGHT / 2 else -(PLATE_HEIGHT / 2)
      let xOffset : ℝ :=
        if holeId = 0 ∨ holeId = 3 then -1 * STUD_SIZE
        else if holeId = 2 ∨ holeId = 5 then 1 * STUD_SIZE
        else 0
      ⟨xOffset, yOffset, 0⟩
    TopHoleIds := some [0, 1, 2]
    BottomHoleIds := some [3, 4, 5] }

/-- The `BRICK_DEFINITIONS` entry for the 2x1 brick. -/
def twoOneDef : BrickDef :=
  { Size := ⟨2 * STUD_SIZE, PLATE_HEIGHT, 1 * STUD_SIZE⟩
    HoleOffsets := fun holeId =>
      let yOffset : ℝ := if holeId ≤ 1 then PLATE_HEIGHT / 2 else -(PLATE_HEIGHT / 2)
      let xOffset : ℝ :=
        if holeId = 0 ∨ holeId = 2 then -0.5 * STUD_SIZE else 0.5 * STUD_SIZE
      ⟨xOffset, yOffset, 0⟩
    TopHoleIds := some [0, 1]
    BottomHoleIds := some [2, 3] }

/-- The `BRICK_DEFINITIONS` entry for the 1x1 brick. -/
def oneOneDef : BrickDef :=
  { Size := ⟨1 * STUD_SIZE, PLATE_HEIGHT, 1 * STUD_SIZE⟩
    HoleOffsets := fun holeId =>
      let yOffset : ℝ := if holeId = 0 then PLATE_HEIGHT / 2 else -(PLATE_HEIGHT / 2)
      ⟨0, yOffset, 0⟩
    TopHoleIds := some [0]
    BottomHoleIds := some [1] }

/-- Lookup in the `BRICK_DEFINITIONS` object literal (`getBrickDefinition`). -/
def getBrickDefinition (brickType : String) : Option BrickDef :=
  match brickType with
  | "base" => some baseDef
  | "3x1" => some threeOneDef
  | "2x1" => some twoOneDef
  | "1x1" => some oneOneDef
  | _ => none

/-- The `COLOR_MAP` object literal as a finite lookup. -/
def COLOR_MAP (name : String) : Option Nat :=
  match name with
  | "white" => some 0xffffff
  | "yellow" => some 0xffff00
  | "blue" => some 0x0000ff
  | "orange" => some 0xffa500
  | "pink" => some 0xffc0cb
  | "purple" => some 0x800080
  | "green" => some 0x00ff00
  | "default" => some 0x888888
  | _ => none

/-- Models JS `a || b` on an optional number: a present non-zero (truthy) value wins,
otherwise the fallback. -/
def jsOrNat (v : Option Nat) (fallback : Nat) : Nat :=
  match v with
  | some n => if n = 0 then fallback else n
  | none => fallback

/-- Character-wise lowering (`String.prototype.toLowerCase()`) of the string's
data (the colour names in play are ASCII). -/
def jsToLower (s : String) : String := String.mk (s.data.map Char.toLower)

/-- Colour-name conversion (`getBrickColorHex(colorName)`): lowercase lookup with grey fallback
(`COLOR_MAP["default"] = 0x888888`); a missing name indexes as `undefined`. -/
def getBrickColorHex (colorName : Option String) : Nat :=
  jsOrNat (Option.bind (colorName.map jsToLower) COLOR_MAP) 0x888888

/-- Top-hole test (`isTopHole(brickDef, holeId)`; the `!brickDef` guard of the source is
handled at the call sites, which only reach this with a found definition). -/
def isTopHole (brickDef : BrickDef) (holeId : Int) : Bool :=
  if brickDef.IsBase then true
  else
    match brickDef.TopHoleIds with
    | none => false
    | some tops => tops.contains holeId

/-- One entry of a record's `holes` array: `{id, brick, connectedToHole,
orientation}`.  `brick` is the connected brick id as a string (`String(holeData.brick)`,
sentinel `"-1"`); `connectedToHole` and `orientation` may be absent in the JSON. -/
structure HoleData where
  id : Int
  brick : String
  connectedToHole : Option Int
  orientation : Option ℝ

/-- One input brick record, fields as carried in the JSON contract; `id` is the
normalized string id (`String(brickData.id)`). -/
structure BrickRecord where
  id : String
  type : String
  colour : Option String
  holes : List HoleData

/-- A world transform: mesh position plus quaternion. -/
structure Placement where
  pos : Vec3
  rot : Quat

/-- One resolved brick as handed to the renderable sink. -/
structure PlacedBrick where
  id : String
  type : String
  colorHex : Nat
  worldPosition : Vec3
  worldRotation : Quat

/-- Instrumentation record for one traversed-and-emitted connection edge:
parent id/type and its transform at traversal time, the originating hole id,
the raw orientation field, and the emitted child id/type/socket/transform. -/
structure Edge where
  parentId : String
  parentType : String
  parent : Placement
  holeId : Int
  orientation : Option ℝ
  childId : String
  childType : String
  connectedToHole : Int
  child : Placement

/-- The mutable state of the BFS in `buildStructure`. -/
structure BuildState where
  meshes : List (String × Placement)
  processed : List String
  queue : List String
  placed : List PlacedBrick
  trace : List Edge

/-- Fatal outcomes of `buildStructure` (the early `return`s before the BFS). -/
inductive BuildError where
  | missingBase
  | invalidBaseDefinition
deriving DecidableEq

/-- Successful output: the emitted bricks in emission order plus the edge trace. -/
structure BuildOutput where
  placed : List PlacedBrick
  trace : List Edge

/-- Index the records by normalized string id (`bricksById`); later records with the
same id overwrite earlier ones (JS object assignment), hence `getLast?`. -/
def bricksById (records : List BrickRecord) (key : String) : Option BrickRecord :=
  (records.filter (fun r => r.id == key)).getLast?

/-- Lookup in the mesh map; newest insertion wins (JS key overwrite). -/
def lookupMesh (meshes : List (String × Placement)) (key : String) : Option Placement :=
  (meshes.find? (fun p => p.1 == key)).map (fun p => p.2)

/-- Models `mesh.localToWorld(v)` for a mesh with the given position/quaternion whose
parent chain (`structureGroup` / scene) carries the identity transform. -/
def localToWorld (mesh : Placement) (v : Vec3) : Vec3 :=
  vadd mesh.pos (qapply mesh.rot v)

/-- The "Core Placement Logic" block (lines 396-447 of `script.js`): compute the
connected brick's world transform from the parent's and emit it. -/
def emitChild (parentId parentType : String) (pdef : BrickDef) (pmesh : Placement)
    (connData : BrickRecord) (connDef : BrickDef) (tHole : Int)
    (st : BuildState) (h : HoleData) : BuildState :=
  let bottomHoleLocalOffset := pdef.HoleOffsets h.id
  let topHoleLocalOffset := connDef.HoleOffsets tHole
  let bottomHoleWorldPos := localToWorld pmesh bottomHoleLocalOffset
  let relativeRotation :=
    setFromAxisAngle ⟨0, 1, 0⟩ (-(degToRad (h.orientation.getD 0)))
  let worldRotation := qmul pmesh.rot relativeRotation
  let centerOffset := qapply worldRotation topHoleLocalOffset
  let newBrickPosition := vsub bottomHoleWorldPos centerOffset
  let pb : PlacedBrick :=
    { id := h.brick, type := connData.type
      colorHex := getBrickColorHex connData.colour
      worldPosition := newBrickPosition, worldRotation := worldRotation }
  { st with
    meshes := (h.brick, ⟨newBrickPosition, worldRotation⟩) :: st.meshes
    processed := h.brick :: st.processed
    queue := st.queue ++ [h.brick]
    placed := st.placed ++ [pb]
    trace := st.trace ++
      [{ parentId := parentId, parentType := parentType, parent := pmesh
         holeId := h.id, orientation := h.orientation
         childId := h.brick, childType := connData.type
         connectedToHole := tHole
         child := ⟨newBrickPosition, worldRotation⟩ }] }

/-- The body of the `forEach` over `currentBrickData.holes`: process one hole
descriptor of the current brick, possibly emitting the connected brick. -/
def processHole (byId : String → Option BrickRecord) (parentId parentType : String)
    (pdef : BrickDef) (pmesh : Placement) (st : BuildState) (h : HoleData) : BuildState :=
  if h.brick ≠ "-1" ∧ isTopHole pdef h.id = true then
    if h.brick ∈ st.processed then st
    else
      match byId h.brick with
      | none =>
          -- dangling reference: warn and mark visited to avoid retry loops
          { st with processed := h.brick :: st.processed }
      | some connData =>
          match getBrickDefinition connData.type with
          | none => st
          | some connDef =>
              match h.connectedToHole with
              | none => st
              | some tHole => emitChild parentId parentType pdef pmesh connData connDef tHole st h
  else st

/-- One iteration of the `while` loop after the dequeue: fetch the current
brick's data, mesh and definition and fold over its holes. -/
def processCurrent (byId : String → Option BrickRecord) (currentId : String)
    (st : BuildState) : BuildState :=
  match lookupMesh st.meshes currentId, byId currentId with
  | some pmesh, some data =>
      match getBrickDefinition data.type with
      | some pdef => data.holes.foldl (processHole byId currentId data.type pdef pmesh) st
      | none => st
  | _, _ => st

/-- The BFS `while (queue.length > 0)` loop, with explicit fuel. -/
def bfsLoop (byId : String → Option BrickRecord) : Nat → BuildState → BuildState
  | 0, st => st
  | Nat.succ n, st =>
      match st.queue with
      | [] => st
      | currentId :: rest => bfsLoop byId n (processCurrent byId currentId { st with queue := rest })

/-- The base plate as emitted: world origin, default (identity) quaternion. -/
def basePlacedOf (baseData : BrickRecord) : PlacedBrick :=
  { id := baseData.id, type := baseData.type
    colorHex := getBrickColorHex baseData.colour
    worldPosition := vzero, worldRotation := qid }

/-- The BFS state right after the base brick is created, stored, marked
processed and enqueued. -/
def initStateOf (baseData : BrickRecord) : BuildState :=
  { meshes := [(baseData.id, ⟨vzero, qid⟩)]
    processed := [baseData.id]
    queue := [baseData.id]
    placed := [basePlacedOf baseData]
    trace := [] }

/-- Fuel-parameterized form of `buildStructure`. -/
def resolveWith (fuel : Nat) (records : List BrickRecord) : Except BuildError BuildOutput :=
  match bricksById records "1" with
  | none => Except.error BuildError.missingBase
  | some baseData =>
      if baseData.type = "base" then
        match getBrickDefinition baseData.type with
        | none => Except.error BuildError.invalidBaseDefinition
        | some _ =>
            Except.ok
              { placed := (bfsLoop (bricksById records) fuel (initStateOf baseData)).placed
                trace := (bfsLoop (bricksById records) fuel (initStateOf baseData)).trace }
      else Except.error BuildError.missingBase

/-- The structure resolver (`buildStructure`): `records.length + 1` dequeues are
proved sufficient for the loop to drain its queue. -/
def resolve (records : List BrickRecord) : Except BuildError BuildOutput :=
  resolveWith (records.length + 1) records

-- ### Basic quaternion/vector lemmas

theorem qmul_qid_left (q : Quat) : qmul qid q = q := by
  simp [qmul, qid]

theorem qmul_qid_right (q : Quat) : qmul q qid = q := by
  simp [qmul, qid]

theorem qapply_qid (v : Vec3) : qapply qid v = v := by
  simp [qapply, qid]

/-- Orientation `0` produces the identity relative rotation. -/
theorem rotY_zero : setFromAxisAngle ⟨0, 1, 0⟩ (-(degToRad 0)) = qid := by
  simp [setFromAxisAngle, degToRad, qid]

-- ### The single-child scenario of the spec (base socket 0 → brick "56", 1x1, orientation 0)

def sampleBase : BrickRecord :=
  { id := "1", type := "base", colour := some "white"
    holes := [{ id := 0, brick := "56", connectedToHole := some 1, orientation := some 0 }] }

def sampleChild : BrickRecord :=
  { id := "56", type := "1x1", colour := some "blue"
    holes := [{ id := 1, brick := "1", connectedToHole := some 0, orientation := some 0 }] }

def sampleInput : List BrickRecord := [sampleBase, sampleChild]

def samplePlacedBase : PlacedBrick :=
  { id := "1", type := "base", colorHex := 0xffffff
    worldPosition := vzero, worldRotation := qid }

def samplePlacedChild : PlacedBrick :=
  { id := "56", type := "1x1", colorHex := 0x0000ff
    worldPosition := ⟨-3, 2.4, -3⟩, worldRotation := qid }

def sampleEdge : Edge :=
  { parentId := "1", parentType := "base", parent := ⟨vzero, qid⟩
    holeId := 0, orientation := some 0
    childId := "56", childType := "1x1", connectedToHole := 1
    child := ⟨⟨-3, 2.4, -3⟩, qid⟩ }

def sampleOutput : BuildOutput :=
  { placed := [samplePlacedBase, samplePlacedChild], trace := [sampleEdge] }

theorem colorHex_white : getBrickColorHex (some "white") = 0xffffff := by decide

theorem colorHex_blue : getBrickColorHex (some "blue") = 0x0000ff := by decide

/-- Full evaluation of the resolver on the single-child scenario. -/
theorem resolve_sample_eval : resolve sampleInput = Except.ok sampleOutput := by
  simp [resolve, resolveWith, sampleInput, sampleBase, sampleChild, bricksById, bfsLoop,
        processCurrent, processHole, emitChild, initStateOf, basePlacedOf,
        lookupMesh, localToWorld, getBrickDefinition,
        colorHex_white, colorHex_blue, isTopHole, baseDef, oneOneDef,
        setFromAxisAngle, degToRad, qmul, qapply, vadd, vsub, vzero, qid,
        sampleOutput, samplePlacedBase, samplePlacedChild, sampleEdge]
  norm_num [STUD_SIZE, PLATE_HEIGHT]

-- ### Lookup lemmas

theorem bricksById_some {records : List BrickRecord} {key : String} {r : BrickRecord}
    (h : bricksById records key = some r) : r ∈ records ∧ r.id = key := by
  unfold bricksById at h
  rcases List.getLast?_eq_some_iff.mp h with ⟨ys, hys⟩
  have hr : r ∈ records.filter (fun r => r.id == key) := by
    rw [hys]; exact List.mem_append_right ys (List.mem_singleton.mpr rfl)
  rcases List.mem_filter.mp hr with ⟨h1, h2⟩
  exact ⟨h1, by simpa using h2⟩

theorem bricksById_none {records : List BrickRecord} {key : String}
    (h : bricksById records key = none) : ∀ r ∈ records, r.id ≠ key := by
  unfold bricksById at h
  rw [List.getLast?_eq_none_iff] at h
  intro r hr hid
  have : r ∈ records.filter (fun r => r.id == key) :=
    List.mem_filter.mpr ⟨hr, by simp [hid]⟩
  simp [h] at this

theorem lookupMesh_mem {meshes : List (String × Placement)} {key : String} {pl : Placement}
    (h : lookupMesh meshes key = some pl) : (key, pl) ∈ meshes := by
  unfold lookupMesh at h
  cases hf : meshes.find? (fun p => p.1 == key) with
  | none => rw [hf] at h; simp at h
  | some p =>
      rw [hf] at h
      simp only [Option.map_some'] at h
      have hm := List.mem_of_find?_eq_some hf
      have hp := List.find?_some hf
      have hpk : p.1 = key := by simpa using hp
      have : (key, pl) = p := by
        cases p with
        | mk a b => simp only [Option.some.injEq] at h; simp_all
      rwa [this]

-- ### Branch characterization of `processHole`

theorem processHole_spec (byId : String → Option BrickRecord) (pid ptype : String)
    (pdef : BrickDef) (pmesh : Placement) (st : BuildState) (h : HoleData) :
    processHole byId pid ptype pdef pmesh st h = st ∨
    ((h.brick ≠ "-1" ∧ isTopHole pdef h.id = true) ∧ h.brick ∉ st.processed ∧
      byId h.brick = none ∧
      processHole byId pid ptype pdef pmesh st h =
        { st with processed := h.brick :: st.processed }) ∨
    (∃ connData connDef tHole,
      (h.brick ≠ "-1" ∧ isTopHole pdef h.id = true) ∧ h.brick ∉ st.processed ∧
      byId h.brick = some connData ∧ getBrickDefinition connData.type = some connDef ∧
      h.connectedToHole = some tHole ∧
      processHole byId pid ptype pdef pmesh st h =
        emitChild pid ptype pdef pmesh connData connDef tHole st h) := by
  unfold processHole
  by_cases hg : h.brick ≠ "-1" ∧ isTopHole pdef h.id = true
  · rw [if_pos hg]
    by_cases hp : h.brick ∈ st.processed
    · rw [if_pos hp]; left; rfl
    · rw [if_neg hp]
      cases hb : byId h.brick with
      | none => right; left; exact ⟨hg, hp, rfl, rfl⟩
      | some connData =>
          dsimp only
          cases hd : getBrickDefinition connData.type with
          | none => left; rfl
          | some connDef =>
              dsimp only
              cases hc : h.connectedToHole with
              | none => left; rfl
              | some tHole =>
                  right; right
                  refine ⟨connData, connDef, tHole, hg, hp, ?_, ?_, ?_, rfl⟩ <;>
                    first | rfl | assumption
  · rw [if_neg hg]; left; rfl

theorem processHole_meshes_mono {byId pid ptype pdef pmesh st h} {x : String × Placement}
    (hx : x ∈ st.meshes) : x ∈ (processHole byId pid ptype pdef pmesh st h).meshes := by
  rcases processHole_spec byId pid ptype pdef pmesh st h with heq | ⟨_, _, _, heq⟩ |
    ⟨cd, cf, t, _, _, _, _, _, heq⟩ <;> rw [heq]
  · exact hx
  · exact hx
  · exact List.mem_cons_of_mem _ hx

-- ### Generic invariant machinery over the BFS

theorem foldl_holes_inv (byId : String → Option BrickRecord) (P : BuildState → Prop)
    (pid ptype : String) (pdef : BrickDef) (pmesh : Placement)
    (hstep : ∀ st h, (pid, pmesh) ∈ st.meshes → P st →
        P (processHole byId pid ptype pdef pmesh st h)) :
    ∀ (holes : List HoleData) (st : BuildState), (pid, pmesh) ∈ st.meshes → P st →
      P (holes.foldl (processHole byId pid ptype pdef pmesh) st) := by
  intro holes
  induction holes with
  | nil => intro st _ hp; exact hp
  | cons hd tl ih =>
      intro st hm hp
      exact ih _ (processHole_meshes_mono hm) (hstep st hd hm hp)

theorem processCurrent_inv (byId : String → Option BrickRecord) (P : BuildState → Prop)
    (hstep : ∀ pid ptype pdef pmesh st h, getBrickDefinition ptype = some pdef →
        (pid, pmesh) ∈ st.meshes → P st →
        P (processHole byId pid ptype pdef pmesh st h)) :
    ∀ (cid : String) (st : BuildState), P st → P (processCurrent byId cid st) := by
  intro cid st hp
  unfold processCurrent
  cases hm : lookupMesh st.meshes cid with
  | none => cases hb : byId cid <;> exact hp
  | some pmesh =>
      cases hb : byId cid with
      | none => exact hp
      | some data =>
          dsimp only
          cases hd : getBrickDefinition data.type with
          | none => exact hp
          | some pdef =>
              exact foldl_holes_inv byId P cid data.type pdef pmesh
                (fun st' h' => hstep cid data.type pdef pmesh st' h' hd)
                data.holes st (lookupMesh_mem hm) hp

theorem bfsLoop_succ (byId : String → Option BrickRecord) (n : Nat) (st : BuildState) :
    bfsLoop byId (n + 1) st =
      (match st.queue with
       | [] => st
       | currentId :: rest =>
           bfsLoop byId n (processCurrent byId currentId { st with queue := rest })) := rfl

theorem bfsLoop_inv (byId : String → Option BrickRecord) (P : BuildState → Prop)
    (hqueue : ∀ st q, P st → P { st with queue := q })
    (hstep : ∀ pid ptype pdef pmesh st h, getBrickDefinition ptype = some pdef →
        (pid, pmesh) ∈ st.meshes → P st →
        P (processHole byId pid ptype pdef pmesh st h)) :
    ∀ (fuel : Nat) (st : BuildState), P st → P (bfsLoop byId fuel st) := by
  intro fuel
  induction fuel with
  | zero => intro st hp; exact hp
  | succ n ih =>
      intro st hp
      rw [bfsLoop_succ]
      cases hq : st.queue with
      | nil => exact hp
      | cons cid rest =>
          exact ih _ (processCurrent_inv byId P hstep cid _ (hqueue st rest hp))

theorem resolve_ok_final {records : List BrickRecord} {out : BuildOutput}
    (h : resolve records = Except.ok out) :
    ∃ baseData, bricksById records "1" = some baseData ∧ baseData.id = "1" ∧
      baseData.type = "base" ∧
      out.placed = (bfsLoop (bricksById records) (records.length + 1) (initStateOf baseData)).placed ∧
      out.trace = (bfsLoop (bricksById records) (records.length + 1) (initStateOf baseData)).trace := by
  unfold resolve resolveWith at h
  cases hb : bricksById records "1" with
  | none => rw [hb] at h; simp at h
  | some baseData =>
      rw [hb] at h
      dsimp only at h
      by_cases ht : baseData.type = "base"
      · rw [ht, if_pos rfl] at h
        have hgd : getBrickDefinition "base" = some baseDef := rfl
        rw [hgd] at h
        dsimp only at h
        have hout := (Except.ok.inj h).symm
        exact ⟨baseData, rfl, (bricksById_some hb).2, ht, by rw [hout], by rw [hout]⟩
      · rw [if_neg ht] at h; simp at h

-- ### Trace well-formedness: every recorded edge satisfies the transform math

/-- What holds of every traversed-and-emitted edge: the parent/child types are
in the catalog, the originating hole is a top hole of the parent's type, the
child's rotation is the parent's composed with the (negated, radian) orientation
spin about world-up, and the child's position is the parent's socket world
position minus the child's rotated socket offset. -/
def EdgeWellFormed (e : Edge) : Prop :=
  ∃ pdef cdef,
    getBrickDefinition e.parentType = some pdef ∧
    getBrickDefinition e.childType = some cdef ∧
    isTopHole pdef e.holeId = true ∧
    e.child.rot =
      qmul e.parent.rot (setFromAxisAngle ⟨0, 1, 0⟩ (-(degToRad (e.orientation.getD 0)))) ∧
    e.child.pos =
      vsub (vadd e.parent.pos (qapply e.parent.rot (pdef.HoleOffsets e.holeId)))
        (qapply e.child.rot (cdef.HoleOffsets e.connectedToHole))

theorem trace_invariant {records : List BrickRecord} {out : BuildOutput}
    (h : resolve records = Except.ok out) : ∀ e ∈ out.trace, EdgeWellFormed e := by
  obtain ⟨baseData, hb, hid, ht, hplaced, htrace⟩ := resolve_ok_final h
  rw [htrace]
  refine bfsLoop_inv (bricksById records) (fun st => ∀ e ∈ st.trace, EdgeWellFormed e)
    (fun st q hp => hp) ?_ (records.length + 1) (initStateOf baseData) (by simp [initStateOf])
  intro pid ptype pdef pmesh st hd hdef hmem hp
  rcases processHole_spec (bricksById records) pid ptype pdef pmesh st hd with
    heq | ⟨_, _, _, heq⟩ | ⟨cd, cf, t, hg, hp2, hbid, hdef2, hct, heq⟩ <;> rw [heq]
  · exact hp
  · exact hp
  · intro e he
    simp only [emitChild, List.mem_append, List.mem_singleton] at he
    rcases he with he | he
    · exact hp e he
    · subst he
      exact ⟨pdef, cf, hdef, hdef2, hg.2, rfl, rfl⟩

/-- Membership of an id with a given transform among the emitted bricks. -/
def PlacedHas (placed : List PlacedBrick) (id : String) (pl : Placement) : Prop :=
  ∃ pb ∈ placed, pb.id = id ∧ pb.worldPosition = pl.pos ∧ pb.worldRotation = pl.rot

theorem PlacedHas.mono {placed : List PlacedBrick} {id : String} {pl : Placement}
    (l : List PlacedBrick) (h : PlacedHas placed id pl) : PlacedHas (placed ++ l) id pl := by
  obtain ⟨pb, hm, h1, h2, h3⟩ := h
  exact ⟨pb, List.mem_append_left l hm, h1, h2, h3⟩

/-- Every mesh-map entry and both endpoints of every trace edge correspond to an
emitted brick with the same id and transform. -/
theorem trace_placed_linked {records : List BrickRecord} {out : BuildOutput}
    (h : resolve records = Except.ok out) :
    ∀ e ∈ out.trace, PlacedHas out.placed e.parentId e.parent ∧
      PlacedHas out.placed e.childId e.child := by
  obtain ⟨baseData, hb, hid, ht, hplaced, htrace⟩ := resolve_ok_final h
  rw [htrace, hplaced]
  have main := bfsLoop_inv (bricksById records)
    (fun st => (∀ m ∈ st.meshes, PlacedHas st.placed m.1 m.2) ∧
      (∀ e ∈ st.trace, PlacedHas st.placed e.parentId e.parent ∧
        PlacedHas st.placed e.childId e.child))
    (fun st q hp => hp) ?_ (records.length + 1) (initStateOf baseData) ?_
  · exact main.2
  · intro pid ptype pdef pmesh st hd hdef hmem hp
    rcases processHole_spec (bricksById records) pid ptype pdef pmesh st hd with
      heq | ⟨_, _, _, heq⟩ | ⟨cd, cf, t, hg, hp2, hbid, hdef2, hct, heq⟩ <;> rw [heq]
    · exact hp
    · exact hp
    · obtain ⟨hmesh, htr⟩ := hp
      constructor
      · intro m hm
        simp only [emitChild, List.mem_cons] at hm
        rcases hm with hm | hm
        · subst hm
          exact ⟨_, List.mem_append_right _ (List.mem_singleton.mpr rfl), rfl, rfl, rfl⟩
        · exact (hmesh m hm).mono _
      · intro e he
        simp only [emitChild, List.mem_append, List.mem_singleton] at he
        rcases he with he | he
        · exact ⟨((htr e he).1).mono _, ((htr e he).2).mono _⟩
        · subst he
          refine ⟨(hmesh _ hmem).mono _, ?_⟩
          exact ⟨_, List.mem_append_right _ (List.mem_singleton.mpr rfl), rfl, rfl, rfl⟩
  · constructor
    · intro m hm
      simp only [initStateOf, List.mem_singleton] at hm
      subst hm
      exact ⟨basePlacedOf baseData, by simp [initStateOf], rfl, rfl, rfl⟩
    · simp [initStateOf]

theorem vsub_vadd_cancel (a b : Vec3) : vadd (vsub a b) b = a := by
  simp [vadd, vsub]

-- ### Claim theorems (functional correctness of the traversal)

/-- C1: for every connection edge traversed by the resolver from an
already-placed brick P (world rotation `e.parent.rot`, world position
`e.parent.pos`) through P's socket `e.holeId` to a target brick T attached at
T's socket `e.connectedToHole` with orientation angle `d` degrees, the emitted
world rotation of T is P's rotation composed with a rotation of `-d` (converted
to radians) about the world-up Y axis, and the emitted world position of T is
(P's position plus P's rotation applied to P's local socket offset) minus
(T's world rotation applied to T's local socket offset). -/
theorem claim_C1_edge_transform {records : List BrickRecord} {out : BuildOutput}
    (h : resolve records = Except.ok out) :
    ∀ e ∈ out.trace, ∃ pdef cdef,
      getBrickDefinition e.parentType = some pdef ∧
      getBrickDefinition e.childType = some cdef ∧
      e.child.rot =
        qmul e.parent.rot (setFromAxisAngle ⟨0, 1, 0⟩ (-(degToRad (e.orientation.getD 0)))) ∧
      e.child.pos =
        vsub (vadd e.parent.pos (qapply e.parent.rot (pdef.HoleOffsets e.holeId)))
          (qapply e.child.rot (cdef.HoleOffsets e.connectedToHole)) := by
  intro e he
  obtain ⟨pdef, cdef, h1, h2, _, h4, h5⟩ := trace_invariant h e he
  exact ⟨pdef, cdef, h1, h2, h4, h5⟩

/-- C2: whenever resolution succeeds, the very first emitted brick is the base
(id "1", type "base") at world position (0,0,0) with the identity rotation. -/
theorem claim_C2_base_at_origin {records : List BrickRecord} {out : BuildOutput}
    (h : resolve records = Except.ok out) :
    ∃ pb, out.placed.head? = some pb ∧ pb.id = "1" ∧ pb.type = "base" ∧
      pb.worldPosition = vzero ∧ pb.worldRotation = qid := by
  obtain ⟨baseData, hb, hid, ht, hplaced, _⟩ := resolve_ok_final h
  have main := bfsLoop_inv (bricksById records)
    (fun st => st.placed.head? = some (basePlacedOf baseData))
    (fun st q hp => hp) ?_ (records.length + 1) (initStateOf baseData) rfl
  · refine ⟨basePlacedOf baseData, ?_, ?_, ?_, rfl, rfl⟩
    · rw [hplaced]; exact main
    · simp [basePlacedOf, hid]
    · simp [basePlacedOf, ht]
  · intro pid ptype pdef pmesh st hd hdef hmem hp
    rcases processHole_spec (bricksById records) pid ptype pdef pmesh st hd with
      heq | ⟨_, _, _, heq⟩ | ⟨cd, cf, t, hg, hp2, hbid, hdef2, hct, heq⟩ <;> rw [heq]
    · exact hp
    · exact hp
    · cases hpl : st.placed with
      | nil => rw [hpl] at hp; simp at hp
      | cons a tl =>
          rw [hpl] at hp
          simp only [List.head?_cons, Option.some.injEq] at hp
          simp [emitChild, hpl, hp]

/-- C5: for every traversed edge with orientation 0, the world position of the
child's connection socket under its emitted transform coincides exactly with
the world position of the parent's connection socket under the parent's
emitted transform (both endpoints being emitted bricks). -/
theorem claim_C5_sockets_coincide {records : List BrickRecord} {out : BuildOutput}
    (h : resolve records = Except.ok out) :
    ∀ e ∈ out.trace, e.orientation.getD 0 = 0 →
      ∃ pdef cdef,
        getBrickDefinition e.parentType = some pdef ∧
        getBrickDefinition e.childType = some cdef ∧
        vadd e.child.pos (qapply e.child.rot (cdef.HoleOffsets e.connectedToHole)) =
          vadd e.parent.pos (qapply e.parent.rot (pdef.HoleOffsets e.holeId)) ∧
        PlacedHas out.placed e.parentId e.parent ∧
        PlacedHas out.placed e.childId e.child := by
  intro e he horient
  obtain ⟨pdef, cdef, h1, h2, _, h4, h5⟩ := trace_invariant h e he
  obtain ⟨hpa, hpc⟩ := trace_placed_linked h e he
  refine ⟨pdef, cdef, h1, h2, ?_, hpa, hpc⟩
  rw [h5, vsub_vadd_cancel]

/-- C6: every traversed connection originates from a top socket of the current
brick's type (for non-base types this means membership in the type's top-socket
id list); all socket ids of the base type count as top; and every emitted brick
other than the base is the child of exactly the traced (top-socket) edges. -/
theorem claim_C6_only_top_sockets {records : List BrickRecord} {out : BuildOutput}
    (h : resolve records = Except.ok out) :
    (∀ e ∈ out.trace, ∃ pdef, getBrickDefinition e.parentType = some pdef ∧
        isTopHole pdef e.holeId = true ∧
        (pdef.IsBase = false → ∃ tops, pdef.TopHoleIds = some tops ∧ e.holeId ∈ tops)) ∧
    (∀ holeId : Int, isTopHole baseDef holeId = true) ∧
    out.placed.map (fun pb => pb.id) = "1" :: out.trace.map (fun e => e.childId) := by
  refine ⟨?_, ?_, ?_⟩
  · intro e he
    obtain ⟨pdef, cdef, h1, _, h3, _, _⟩ := trace_invariant h e he
    refine ⟨pdef, h1, h3, ?_⟩
    intro hnb
    unfold isTopHole at h3
    rw [hnb] at h3
    simp only [Bool.false_eq_true, if_false] at h3
    cases htop : pdef.TopHoleIds with
    | none => rw [htop] at h3; simp at h3
    | some tops =>
        rw [htop] at h3
        exact ⟨tops, rfl, by simpa [List.contains] using h3⟩
  · intro holeId
    simp [isTopHole, baseDef]
  · obtain ⟨baseData, hb, hid, ht, hplaced, htrace⟩ := resolve_ok_final h
    rw [hplaced, htrace]
    have main := bfsLoop_inv (bricksById records)
      (fun st => st.placed.map (fun pb => pb.id) = baseData.id :: st.trace.map (fun e => e.childId))
      (fun st q hp => hp) ?_ (records.length + 1) (initStateOf baseData)
      (by simp [initStateOf, basePlacedOf])
    · rw [main, hid]
    · intro pid ptype pdef pmesh st hd hdef hmem hp
      rcases processHole_spec (bricksById records) pid ptype pdef pmesh st hd with
        heq | ⟨_, _, _, heq⟩ | ⟨cd, cf, t, hg, hp2, hbid, hdef2, hct, heq⟩ <;> rw [heq]
      · exact hp
      · exact hp
      · simp [emitChild, hp]

/-- C3: an input with no record of normalized id "1" and type "base" yields the
fatal missing-base outcome (and hence no placed bricks at all). -/
theorem claim_C3_missing_base (records : List BrickRecord)
    (h : ∀ r ∈ records, ¬(r.id = "1" ∧ r.type = "base")) :
    resolve records = Except.error BuildError.missingBase := by
  unfold resolve resolveWith
  cases hb : bricksById records "1" with
  | none => rfl
  | some r =>
      obtain ⟨hmem, hrid⟩ := bricksById_some hb
      have hrt : r.type ≠ "base" := fun hty => h r hmem ⟨hrid, hty⟩
      dsimp only
      rw [if_neg hrt]

-- ### Each brick id is emitted at most once

theorem placed_nodup {records : List BrickRecord} {out : BuildOutput}
    (h : resolve records = Except.ok out) : (out.placed.map (fun pb => pb.id)).Nodup := by
  obtain ⟨baseData, hb, hid, ht, hplaced, _⟩ := resolve_ok_final h
  rw [hplaced]
  have main := bfsLoop_inv (bricksById records)
    (fun st => (st.placed.map (fun pb => pb.id)).Nodup ∧
      ∀ pb ∈ st.placed, pb.id ∈ st.processed)
    (fun st q hp => by exact hp) ?_ (records.length + 1) (initStateOf baseData)
    (by simp [initStateOf, basePlacedOf])
  · exact main.1
  · intro pid ptype pdef pmesh st hd hdef hmem hp
    rcases processHole_spec (bricksById records) pid ptype pdef pmesh st hd with
      heq | ⟨_, _, _, heq⟩ | ⟨cd, cf, t, hg, hp2, hbid, hdef2, hct, heq⟩ <;> rw [heq]
    · exact hp
    · exact ⟨hp.1, fun pb hpb => List.mem_cons_of_mem _ (hp.2 pb hpb)⟩
    · obtain ⟨hnd, hsub⟩ := hp
      constructor
      · simp only [emitChild, List.map_append, List.nodup_append, List.map_cons,
          List.map_nil, List.nodup_cons, List.nodup_nil]
        refine ⟨hnd, by simp, ?_⟩
        intro a ha hb2
        simp only [List.mem_singleton] at hb2
        subst hb2
        rcases List.mem_map.mp ha with ⟨pb, hpb, hpbid⟩
        exact hp2 (hpbid ▸ hsub pb hpb)
      · intro pb hpb
        simp only [emitChild, List.mem_append, List.mem_singleton] at hpb
        rcases hpb with hpb | hpb
        · exact List.mem_cons_of_mem _ (hsub pb hpb)
        · subst hpb; exact List.mem_cons_self _ _

-- ### The BFS loop drains its queue within `records.length + 1` dequeues

/-- Record ids not yet marked processed. -/
def idsRemaining (records : List BrickRecord) (processed : List String) : Finset String :=
  (records.map (fun r => r.id)).toFinset.filter (fun k => k ∉ processed)

/-- Loop measure: queue length plus the number of unprocessed record ids. -/
def stMeasure (records : List BrickRecord) (st : BuildState) : Nat :=
  st.queue.length + (idsRemaining records st.processed).card

theorem idsRemaining_cons (records : List BrickRecord) (processed : List String) (b : String) :
    idsRemaining records (b :: processed) = (idsRemaining records processed).erase b := by
  ext k
  simp only [idsRemaining, Finset.mem_filter, Finset.mem_erase, List.mem_cons]
  tauto

theorem processHole_measure (records : List BrickRecord) (pid ptype : String)
    (pdef : BrickDef) (pmesh : Placement) (st : BuildState) (h : HoleData) :
    stMeasure records (processHole (bricksById records) pid ptype pdef pmesh st h) ≤
      stMeasure records st := by
  rcases processHole_spec (bricksById records) pid ptype pdef pmesh st h with
    heq | ⟨hg, hnp, hnone, heq⟩ | ⟨cd, cf, t, hg, hnp, hsome, hdef2, hct, heq⟩
  · rw [heq]
  · rw [heq]
    unfold stMeasure
    rw [idsRemaining_cons]
    exact Nat.add_le_add_left (Finset.card_erase_le) _
  · have hkey : h.brick ∈ (records.map (fun r => r.id)).toFinset := by
      obtain ⟨hmem, hcid⟩ := bricksById_some hsome
      simp only [List.mem_toFinset, List.mem_map]
      exact ⟨cd, hmem, hcid⟩
    have hrem : h.brick ∈ idsRemaining records st.processed :=
      Finset.mem_filter.mpr ⟨hkey, by simpa using hnp⟩
    have hpos : 0 < (idsRemaining records st.processed).card :=
      Finset.card_pos.mpr ⟨h.brick, hrem⟩
    have hcard : ((idsRemaining records st.processed).erase h.brick).card =
        (idsRemaining records st.processed).card - 1 :=
      Finset.card_erase_of_mem hrem
    rw [heq]
    unfold stMeasure
    simp only [emitChild]
    rw [idsRemaining_cons]
    simp only [List.length_append, List.length_cons, List.length_nil]
    omega

theorem foldl_measure (records : List BrickRecord) (pid ptype : String)
    (pdef : BrickDef) (pmesh : Placement) :
    ∀ (holes : List HoleData) (st : BuildState),
      stMeasure records (holes.foldl (processHole (bricksById records) pid ptype pdef pmesh) st) ≤
        stMeasure records st := by
  intro holes
  induction holes with
  | nil => intro st; exact le_refl _
  | cons hd tl ih =>
      intro st
      exact le_trans (ih _) (processHole_measure records pid ptype pdef pmesh st hd)

theorem processCurrent_measure (records : List BrickRecord) (cid : String) (st : BuildState) :
    stMeasure records (processCurrent (bricksById records) cid st) ≤ stMeasure records st := by
  unfold processCurrent
  cases hm : lookupMesh st.meshes cid with
  | none => cases hb : bricksById records cid <;> exact le_refl _
  | some pmesh =>
      cases hb : bricksById records cid with
      | none => exact le_refl _
      | some data =>
          dsimp only
          cases hd : getBrickDefinition data.type with
          | none => exact le_refl _
          | some pdef => exact foldl_measure records cid data.type pdef pmesh data.holes st

theorem bfsLoop_nil_queue (byId : String → Option BrickRecord) {st : BuildState}
    (h : st.queue = []) : ∀ fuel, bfsLoop byId fuel st = st := by
  intro fuel
  cases fuel with
  | zero => rfl
  | succ n => rw [bfsLoop_succ, h]

theorem bfsLoop_drain (records : List BrickRecord) :
    ∀ (fuel : Nat) (st : BuildState), stMeasure records st ≤ fuel →
      ∀ k, bfsLoop (bricksById records) (fuel + k) st = bfsLoop (bricksById records) fuel st := by
  intro fuel
  induction fuel with
  | zero =>
      intro st hm k
      have hq : st.queue = [] := by
        have : st.queue.length = 0 := by
          have := Nat.le_zero.mp hm
          unfold stMeasure at this
          omega
        exact List.length_eq_zero.mp this
      rw [bfsLoop_nil_queue _ hq, bfsLoop_nil_queue _ hq]
  | succ n ih =>
      intro st hm k
      cases hq : st.queue with
      | nil => rw [bfsLoop_nil_queue _ hq, bfsLoop_nil_queue _ hq]
      | cons cid rest =>
          have hlen : st.queue.length = rest.length + 1 := by rw [hq]; rfl
          have hm2 : stMeasure records { st with queue := rest } ≤ n := by
            unfold stMeasure at hm ⊢
            simp only at hm ⊢
            omega
          have hm3 : stMeasure records
              (processCurrent (bricksById records) cid { st with queue := rest }) ≤ n :=
            le_trans (processCurrent_measure records cid _) hm2
          have hsucc : n + 1 + k = (n + k) + 1 := by omega
          rw [hsucc, bfsLoop_succ, hq, bfsLoop_succ, hq]
          exact ih _ hm3 k

theorem initState_measure (records : List BrickRecord) (baseData : BrickRecord) :
    stMeasure records (initStateOf baseData) ≤ records.length + 1 := by
  unfold stMeasure initStateOf
  have h1 : (idsRemaining records [baseData.id]).card ≤
      (records.map (fun r => r.id)).toFinset.card := Finset.card_filter_le _ _
  have h2 : (records.map (fun r => r.id)).toFinset.card ≤ (records.map (fun r => r.id)).length :=
    List.toFinset_card_le _
  have h3 : (records.map (fun r => r.id)).length = records.length := List.length_map _ _
  simp only [List.length_cons, List.length_nil]
  omega

/-- Extra fuel beyond `records.length + 1` never changes the result: the BFS
while-loop has drained its queue by then. -/
theorem resolveWith_stable (records : List BrickRecord) (k : Nat) :
    resolveWith (records.length + 1 + k) records = resolve records := by
  unfold resolve resolveWith
  cases hb : bricksById records "1" with
  | none => rfl
  | some baseData =>
      dsimp only
      by_cases ht : baseData.type = "base"
      · rw [ht, if_pos (rfl : ("base" : String) = "base"),
          if_pos (rfl : ("base" : String) = "base")]
        have hgd : getBrickDefinition "base" = some baseDef := rfl
        rw [hgd]
        dsimp only
        rw [bfsLoop_drain records (records.length + 1) (initStateOf baseData)
          (initState_measure records baseData) k]
      · rw [if_neg ht, if_neg ht]

-- ### Remaining claim theorems

/-- C4: on the concrete single-child input (base socket 0 → hole 1 of 1x1 brick
"56", orientation 0) the resolver emits "56" at world position (-3, 2.4, -3)
with the identity rotation (constants S = 2, H = 2.4). -/
theorem claim_C4_single_child :
    ∃ out, resolve sampleInput = Except.ok out ∧
      out.placed.map (fun pb => (pb.id, pb.worldPosition, pb.worldRotation)) =
        [("1", vzero, qid), ("56", ⟨-3, 2.4, -3⟩, qid)] :=
  ⟨sampleOutput, resolve_sample_eval,
    by simp [sampleOutput, samplePlacedBase, samplePlacedChild]⟩

/-- C7: for every input list the BFS loop terminates within `records.length + 1`
dequeues (extra fuel never changes the result), each brick id is emitted at most
once, and a connection attempt towards an already-visited id is a no-op on the
whole BFS state. -/
theorem claim_C7_cycle_safe (records : List BrickRecord) (k : Nat) :
    resolveWith (records.length + 1 + k) records = resolve records ∧
    (∀ out, resolve records = Except.ok out → (out.placed.map (fun pb => pb.id)).Nodup) ∧
    (∀ (byId : String → Option BrickRecord) (pid ptype : String) (pdef : BrickDef)
        (pmesh : Placement) (st : BuildState) (hd : HoleData), hd.brick ∈ st.processed →
        processHole byId pid ptype pdef pmesh st hd = st) := by
  refine ⟨resolveWith_stable records k, fun out h => placed_nodup h, ?_⟩
  intro byId pid ptype pdef pmesh st hd hmem
  unfold processHole
  by_cases hg : hd.brick ≠ "-1" ∧ isTopHole pdef hd.id = true
  · rw [if_pos hg, if_pos hmem]
  · rw [if_neg hg]

/-- C8: a traversed top-socket connection towards an id with no record emits
nothing, only marks the id visited (so it is never retried), and leaves the
rest of the state intact; globally, every emitted brick id has a record in the
input. -/
theorem claim_C8_dangling_reference :
    (∀ (byId : String → Option BrickRecord) (pid ptype : String) (pdef : BrickDef)
        (pmesh : Placement) (st : BuildState) (hd : HoleData),
        hd.brick ≠ "-1" ∧ isTopHole pdef hd.id = true → hd.brick ∉ st.processed →
        byId hd.brick = none →
        processHole byId pid ptype pdef pmesh st hd =
          { st with processed := hd.brick :: st.processed }) ∧
    (∀ (records : List BrickRecord) (out : BuildOutput), resolve records = Except.ok out →
        ∀ pb ∈ out.placed, ∃ r ∈ records, r.id = pb.id) := by
  constructor
  · intro byId pid ptype pdef pmesh st hd hg hnp hnone
    unfold processHole
    rw [if_pos hg, if_neg hnp, hnone]
  · intro records out h pb hpb
    obtain ⟨baseData, hb, hid, ht, hplaced, _⟩ := resolve_ok_final h
    rw [hplaced] at hpb
    have main := bfsLoop_inv (bricksById records)
      (fun st => ∀ pb ∈ st.placed, ∃ r ∈ records, r.id = pb.id)
      (fun st q hp => by exact hp) ?_ (records.length + 1) (initStateOf baseData) ?_
    · exact main pb hpb
    · intro pid ptype pdef pmesh st hd hdef hmem hp
      rcases processHole_spec (bricksById records) pid ptype pdef pmesh st hd with
        heq | ⟨_, _, _, heq⟩ | ⟨cd, cf, t, hg, hp2, hbid, hdef2, hct, heq⟩ <;> rw [heq]
      · exact hp
      · exact hp
      · intro pb2 hpb2
        simp only [emitChild, List.mem_append, List.mem_singleton] at hpb2
        rcases hpb2 with hpb2 | hpb2
        · exact hp pb2 hpb2
        · subst hpb2
          obtain ⟨hmem2, hcid⟩ := bricksById_some hbid
          exact ⟨cd, hmem2, hcid⟩
    · intro pb2 hpb2
      simp only [initStateOf, List.mem_singleton] at hpb2
      subst hpb2
      exact ⟨baseData, (bricksById_some hb).1, rfl⟩

/-- C9 counterexample: the socket-offset functions do not fail and return no
sentinel on out-of-range socket ids.  On the 3x1 type, the undefined id 7 is
mapped to exactly the same ordinary offset as the defined bottom socket 4, and
on the base type the out-of-range id 17 yields the plain grid offset
(-1, 1.2, 5). -/
theorem claim_C9_counterexample :
    threeOneDef.HoleOffsets 7 = threeOneDef.HoleOffsets 4 ∧
    baseDef.HoleOffsets 17 = ⟨-1, 1.2, 5⟩ := by
  constructor
  · simp [threeOneDef]
  · simp only [baseDef]
    norm_num [STUD_SIZE, PLATE_HEIGHT,
      (by decide : Int.tmod (17 : Int) 4 = 1), (by decide : Int.fdiv (17 : Int) 4 = 4)]

/-- C9 amended: every catalog socket-offset function is total — an out-of-range
socket id falls through the same coordinate arithmetic and yields an ordinary
local-space offset (for the non-base types coinciding with a defined socket's
offset); no failure and no sentinel value occurs. -/
theorem claim_C9_amended :
    baseDef.HoleOffsets 17 = ⟨-1, 1.2, 5⟩ ∧
    threeOneDef.HoleOffsets 7 = ⟨0, -1.2, 0⟩ ∧
    threeOneDef.HoleOffsets 7 = threeOneDef.HoleOffsets 4 ∧
    twoOneDef.HoleOffsets 9 = ⟨1, -1.2, 0⟩ ∧
    twoOneDef.HoleOffsets 9 = twoOneDef.HoleOffsets 3 ∧
    oneOneDef.HoleOffsets 5 = ⟨0, -1.2, 0⟩ ∧
    oneOneDef.HoleOffsets 5 = oneOneDef.HoleOffsets 1 := by
  refine ⟨?_, ?_, ?_, ?_, ?_, ?_, ?_⟩
  · simp only [baseDef]
    norm_num [STUD_SIZE, PLATE_HEIGHT,
      (by decide : Int.tmod (17 : Int) 4 = 1), (by decide : Int.fdiv (17 : Int) 4 = 4)]
  · norm_num [threeOneDef, PLATE_HEIGHT]
  · simp [threeOneDef]
  · norm_num [twoOneDef, STUD_SIZE, PLATE_HEIGHT]
  · simp [twoOneDef]
  · norm_num [oneOneDef, PLATE_HEIGHT]
  · simp [oneOneDef]

/-- C10: the colour lookup is total with the grey default: a missing colour maps
to 0x888888, a name whose lowercase form is not a key maps to 0x888888, and a
name whose lowercase form is a key maps to that key's value (case-insensitive
via the lowercase normalization). -/
theorem claim_C10_color_lookup :
    getBrickColorHex none = 0x888888 ∧
    (∀ s, COLOR_MAP (jsToLower s) = none → getBrickColorHex (some s) = 0x888888) ∧
    (∀ s v, COLOR_MAP (jsToLower s) = some v → getBrickColorHex (some s) = v) := by
  refine ⟨rfl, ?_, ?_⟩
  · intro s hnone
    simp [getBrickColorHex, jsOrNat, hnone]
  · intro s v hsome
    have hv : v ≠ 0 := by
      unfold COLOR_MAP at hsome
      split at hsome <;>
        first
        | (injection hsome with hsome; omega)
        | exact Option.noConfusion hsome
    simp [getBrickColorHex, jsOrNat, hsome, hv]

-- ### A cyclic scenario: "2" and "3" reference each other via top sockets

def cycBase : BrickRecord :=
  { id := "1", type := "base", colour := none
    holes := [{ id := 0, brick := "2", connectedToHole := some 2, orientation := some 0 }] }

def cycA : BrickRecord :=
  { id := "2", type := "2x1", colour := none
    holes := [{ id := 0, brick := "3", connectedToHole := some 2, orientation := some 0 },
              { id := 2, brick := "1", connectedToHole := some 0, orientation := some 0 }] }

def cycB : BrickRecord :=
  { id := "3", type := "2x1", colour := none
    holes := [{ id := 0, brick := "2", connectedToHole := some 2, orientation := some 0 },
              { id := 2, brick := "2", connectedToHole := some 0, orientation := some 0 }] }

def cycInput : List BrickRecord := [cycBase, cycA, cycB]

def cycPlacedBase : PlacedBrick :=
  { id := "1", type := "base", colorHex := 0x888888
    worldPosition := vzero, worldRotation := qid }

def cycPlacedA : PlacedBrick :=
  { id := "2", type := "2x1", colorHex := 0x888888
    worldPosition := ⟨-2, 2.4, -3⟩, worldRotation := qid }

def cycPlacedB : PlacedBrick :=
  { id := "3", type := "2x1", colorHex := 0x888888
    worldPosition := ⟨-2, 4.8, -3⟩, worldRotation := qid }

def cycEdge1 : Edge :=
  { parentId := "1", parentType := "base", parent := ⟨vzero, qid⟩
    holeId := 0, orientation := some 0
    childId := "2", childType := "2x1", connectedToHole := 2
    child := ⟨⟨-2, 2.4, -3⟩, qid⟩ }

def cycEdge2 : Edge :=
  { parentId := "2", parentType := "2x1", parent := ⟨⟨-2, 2.4, -3⟩, qid⟩
    holeId := 0, orientation := some 0
    childId := "3", childType := "2x1", connectedToHole := 2
    child := ⟨⟨-2, 4.8, -3⟩, qid⟩ }

def cycOutput : BuildOutput :=
  { placed := [cycPlacedBase, cycPlacedA, cycPlacedB], trace := [cycEdge1, cycEdge2] }

/-- Full evaluation of the resolver on the cyclic scenario: it terminates and
places each of the three bricks exactly once. -/
theorem resolve_cyc_eval : resolve cycInput = Except.ok cycOutput := by
  simp [resolve, resolveWith, cycInput, cycBase, cycA, cycB, bricksById, bfsLoop,
        processCurrent, processHole, emitChild, initStateOf, basePlacedOf,
        lookupMesh, localToWorld, getBrickDefinition, getBrickColorHex, jsOrNat,
        isTopHole, baseDef, twoOneDef,
        setFromAxisAngle, degToRad, qmul, qapply, vadd, vsub, vzero, qid,
        cycOutput, cycPlacedBase, cycPlacedA, cycPlacedB, cycEdge1, cycEdge2]
  norm_num [STUD_SIZE, PLATE_HEIGHT]

-- ### Witnesses

/-- Witness for C1 at the single-child scenario's traversed edge. -/
theorem claim_C1_witness :
    sampleEdge.child.rot =
      qmul sampleEdge.parent.rot
        (setFromAxisAngle ⟨0, 1, 0⟩ (-(degToRad (sampleEdge.orientation.getD 0)))) ∧
    sampleEdge.child.pos =
      vsub (vadd sampleEdge.parent.pos
          (qapply sampleEdge.parent.rot (baseDef.HoleOffsets sampleEdge.holeId)))
        (qapply sampleEdge.child.rot (oneOneDef.HoleOffsets sampleEdge.connectedToHole)) := by
  obtain ⟨pdef, cdef, h1, h2, h3, h4⟩ :=
    claim_C1_edge_transform resolve_sample_eval sampleEdge (by simp [sampleOutput])
  have hp : pdef = baseDef := by
    have h1' := h1
    rw [show getBrickDefinition sampleEdge.parentType = some baseDef from rfl] at h1'
    exact (Option.some.inj h1').symm
  have hc : cdef = oneOneDef := by
    have h2' := h2
    rw [show getBrickDefinition sampleEdge.childType = some oneOneDef from rfl] at h2'
    exact (Option.some.inj h2').symm
  subst hp
  subst hc
  exact ⟨h3, h4⟩

/-- Witness for C2 at the single-child scenario. -/
theorem claim_C2_witness :
    sampleOutput.placed.head? = some samplePlacedBase ∧ samplePlacedBase.id = "1" ∧
      samplePlacedBase.type = "base" ∧ samplePlacedBase.worldPosition = vzero ∧
      samplePlacedBase.worldRotation = qid := by
  obtain ⟨pb, hh, h1, h2, h3, h4⟩ := claim_C2_base_at_origin resolve_sample_eval
  have hpb : pb = samplePlacedBase := by
    have hh' := hh
    rw [show sampleOutput.placed.head? = some samplePlacedBase from rfl] at hh'
    exact (Option.some.inj hh').symm
  subst hpb
  exact ⟨hh, h1, h2, h3, h4⟩

/-- Witness for C3: an input holding only brick "56" has no base and fails. -/
theorem claim_C3_witness : resolve [sampleChild] = Except.error BuildError.missingBase :=
  claim_C3_missing_base [sampleChild] (by
    intro r hr
    rw [List.mem_singleton] at hr
    subst hr
    simp [sampleChild])

/-- Witness for C5 at the single-child scenario's traversed edge. -/
theorem claim_C5_witness :
    vadd sampleEdge.child.pos
        (qapply sampleEdge.child.rot (oneOneDef.HoleOffsets sampleEdge.connectedToHole)) =
      vadd sampleEdge.parent.pos
        (qapply sampleEdge.parent.rot (baseDef.HoleOffsets sampleEdge.holeId)) ∧
    PlacedHas sampleOutput.placed sampleEdge.parentId sampleEdge.parent ∧
    PlacedHas sampleOutput.placed sampleEdge.childId sampleEdge.child := by
  obtain ⟨pdef, cdef, h1, h2, h3, h4, h5⟩ :=
    claim_C5_sockets_coincide resolve_sample_eval sampleEdge (by simp [sampleOutput]) rfl
  have hp : pdef = baseDef := by
    have h1' := h1
    rw [show getBrickDefinition sampleEdge.parentType = some baseDef from rfl] at h1'
    exact (Option.some.inj h1').symm
  have hc : cdef = oneOneDef := by
    have h2' := h2
    rw [show getBrickDefinition sampleEdge.childType = some oneOneDef from rfl] at h2'
    exact (Option.some.inj h2').symm
  subst hp
  subst hc
  exact ⟨h3, h4, h5⟩

/-- Witness for C6 at the single-child scenario. -/
theorem claim_C6_witness :
    isTopHole baseDef sampleEdge.holeId = true ∧
    isTopHole baseDef 7 = true ∧
    sampleOutput.placed.map (fun pb => pb.id) =
      "1" :: sampleOutput.trace.map (fun e => e.childId) := by
  obtain ⟨ha, hb, hc⟩ := claim_C6_only_top_sockets resolve_sample_eval
  obtain ⟨pdef, h1, h2, h3⟩ := ha sampleEdge (by simp [sampleOutput])
  have hp : pdef = baseDef := by
    have h1' := h1
    rw [show getBrickDefinition sampleEdge.parentType = some baseDef from rfl] at h1'
    exact (Option.some.inj h1').symm
  subst hp
  exact ⟨h2, hb 7, hc⟩

/-- Witness for C7 at the cyclic scenario ("2" and "3" reference each other). -/
theorem claim_C7_witness :
    resolveWith (cycInput.length + 1 + 2) cycInput = resolve cycInput ∧
    (cycOutput.placed.map (fun pb => pb.id)).Nodup ∧
    processHole (bricksById cycInput) "1" "base" baseDef ⟨vzero, qid⟩ (initStateOf cycBase)
        { id := 0, brick := "1", connectedToHole := some 0, orientation := some 0 } =
      initStateOf cycBase := by
  obtain ⟨h1, h2, h3⟩ := claim_C7_cycle_safe cycInput 2
  exact ⟨h1, h2 cycOutput resolve_cyc_eval,
    h3 _ _ _ _ _ _ _ (by simp [initStateOf, cycBase])⟩

/-- Witness for C8: a dangling target "99" is marked visited without emission,
and the emitted brick "56" of the single-child scenario has an input record. -/
theorem claim_C8_witness :
    processHole (fun _ => none) "1" "base" baseDef ⟨vzero, qid⟩ (initStateOf sampleBase)
        { id := 0, brick := "99", connectedToHole := some 0, orientation := some 0 } =
      { initStateOf sampleBase with
        processed := "99" :: (initStateOf sampleBase).processed } ∧
    ∃ r ∈ sampleInput, r.id = samplePlacedChild.id := by
  obtain ⟨h1, h2⟩ := claim_C8_dangling_reference
  constructor
  · exact h1 (fun _ => none) "1" "base" baseDef ⟨vzero, qid⟩ (initStateOf sampleBase) _
      ⟨by decide, rfl⟩ (by simp [initStateOf, sampleBase]) rfl
  · exact h2 sampleInput sampleOutput resolve_sample_eval samplePlacedChild
      (by simp [sampleOutput])

/-- Witness for C10: missing colour, unknown name and an upper-case known name. -/
theorem claim_C10_witness :
    getBrickColorHex none = 0x888888 ∧
    getBrickColorHex (some "teal") = 0x888888 ∧
    getBrickColorHex (some "BLUE") = 0x0000ff := by
  obtain ⟨h1, h2, h3⟩ := claim_C10_color_lookup
  exact ⟨h1, h2 "teal" (by decide), h3 "BLUE" 0x0000ff (by decide)⟩
